import Mathlib

/-!
Shallow embedding of the Share-or-Steal matchmaking server
(`src/server/index.js`): per-location waiting queues, match records with a
decision deadline, the `join_location` / `submit_choice` / `disconnect`
handlers, the timer-driven `maybeFinish` finalization, and the pure
`computeOutcomeAndPrizes` resolver.

Modelling conventions:
- Connection identifiers (socket ids), location identifiers and match
  identifiers are natural numbers; match identifiers are drawn from a
  counter (the source uses UUIDs, whose only relevant property is
  freshness).
- The random reward-code generator (`Math.random().toString(36)...`) is
  abstracted as explicit string parameters (`codeA`, `codeB`) passed to the
  finalization step; every theorem quantifies over them, so nothing depends
  on the code values, only on presence/absence.
- `io.sockets.sockets` (the liveness registry) is the `live` list; a
  socket is removed from it before its disconnect listeners run, matching
  socket.io's removal order.
- Emitted socket events are accumulated in an `events` log, newest last.
- Current time is an explicit `now : Nat` parameter of each handler
  (milliseconds, as in `Date.now()`).
-/

abbrev ConnId := Nat
abbrev LocationId := Nat
abbrev MatchId := Nat

/-- The payload of `socket.data`, set by the `join_location` handler. -/
structure SockData where
  locationId : LocationId
  playerName : String
deriving Repr, DecidableEq

/-- One side of a match record (`match.a` / `match.b` in the source):
connection id, display name, and the decision slot (`null` / `share` /
`steal`, modelled as `Option String`). -/
structure Participant where
  id : ConnId
  name : String
  choice : Option String
deriving Repr, DecidableEq

/-- A match record as stored in the `matches` map. `timerAt` is the absolute
time at which the `setTimeout` armed at creation fires
(`DECISION_MS + 250` after creation). -/
structure MatchState where
  id : MatchId
  locationId : LocationId
  a : Participant
  b : Participant
  deadline : Nat
  finished : Bool
  timerAt : Nat
deriving Repr, DecidableEq

/-- Whether connection `c` is one of the two participants of `m`. -/
def MatchState.hasConn (m : MatchState) (c : ConnId) : Prop :=
  m.a.id = c ∨ m.b.id = c

instance (m : MatchState) (c : ConnId) : Decidable (m.hasConn c) := by
  unfold MatchState.hasConn; infer_instance

/-- Events the server emits to individual sockets. -/
inductive Event where
  | queued (dest : ConnId) (position : Nat)
  | match_found (dest : ConnId) (matchId : MatchId) (opponentId : ConnId)
      (opponentName : String) (decisionDeadline : Nat)
  | choice_recorded (dest : ConnId) (matchId : MatchId)
  | errorMsg (dest : ConnId) (message : String)
  | result (dest : ConnId) (matchId : MatchId) (yourChoice theirChoice : String)
      (yourPrizeCode : Option String)
  | requeue (dest : ConnId) (reason : String)
deriving Repr, DecidableEq

/-- The full in-memory server state: `waitingByLocation` (total function,
empty queue standing for an absent key — the source lazily creates empty
queues), the `matches` map (list in insertion order, as a JS `Map`
iterates), the socket registry `live`, each socket's `data`, the per-join
disconnect cleanup listeners in registration order, the log of emitted
events, and the fresh-match-id counter. -/
structure ServerState where
  waitingByLocation : LocationId → List ConnId
  matchesMap : List MatchState
  live : List ConnId
  sockData : ConnId → Option SockData
  listeners : List (ConnId × LocationId)
  events : List Event
  nextMatchId : Nat

/-- `const DECISION_MS = 20_000`. -/
def DECISION_MS : Nat := 20000

/-- `playerName || 'Player'` — JS treats the empty string as falsy. -/
def orPlayer : Option String → String
  | none => "Player"
  | some s => if s = "" then "Player" else s

/-- Read a socket's `data`; every socket that can reach `createMatch` has
had its data set by a prior `join_location`, so the default is inert. -/
def dataOf (s : ServerState) (c : ConnId) : SockData :=
  (s.sockData c).getD ⟨0, "Player"⟩

/-- `computeOutcomeAndPrizes(a, b)`: outcome category and the two prize
codes. The two fresh random codes are passed in as `codeA`, `codeB`. -/
def computeOutcomeAndPrizes (a b codeA codeB : String) :
    String × Option String × Option String :=
  if a = "share" ∧ b = "share" then
    ("SS", some ("P-" ++ codeA), some ("P-" ++ codeB))
  else if a = "share" ∧ b = "steal" then
    ("ST", none, some ("P-" ++ codeB ++ "-BOTH"))
  else if a = "steal" ∧ b = "share" then
    ("TS", some ("P-" ++ codeA ++ "-BOTH"), none)
  else ("TT", none, none)

/-- The match record minted by `createMatch`: fresh id from the counter,
location inherited from side A's `socket.data`, both decision slots empty,
`deadline = now + DECISION_MS`, finalize timer armed at `deadline + 250`. -/
def mintedMatch (s : ServerState) (now : Nat) (aId bId : ConnId) : MatchState :=
  { id := s.nextMatchId
    locationId := (dataOf s aId).locationId
    a := { id := aId, name := (dataOf s aId).playerName, choice := none }
    b := { id := bId, name := (dataOf s bId).playerName, choice := none }
    deadline := now + DECISION_MS
    finished := false
    timerAt := now + DECISION_MS + 250 }

/-- `createMatch(sockA, sockB)`: mint the match record, store it and notify
both sides with `match_found`. -/
def createMatch (s : ServerState) (now : Nat) (aId bId : ConnId) : ServerState :=
  let m := mintedMatch s now aId bId
  { s with
    matchesMap := s.matchesMap ++ [m]
    nextMatchId := s.nextMatchId + 1
    events := s.events ++
      [Event.match_found aId m.id bId (dataOf s bId).playerName m.deadline,
       Event.match_found bId m.id aId (dataOf s aId).playerName m.deadline] }

/-- The `join_location` handler: set `socket.data`; if the location's queue
is non-empty pop the head — if it is no longer a live socket, append the
requester and report it queued at the new length, otherwise create the
match; if the queue is empty, append the requester, report position, and
register the disconnect-cleanup listener for this location. -/
def joinLocation (s : ServerState) (now : Nat) (c : ConnId)
    (locationId : LocationId) (playerName : Option String) : ServerState :=
  let s0 := { s with
    sockData := Function.update s.sockData c (some ⟨locationId, orPlayer playerName⟩) }
  match s0.waitingByLocation locationId with
  | partnerId :: rest =>
    if partnerId ∈ s0.live then
      createMatch
        { s0 with waitingByLocation := Function.update s0.waitingByLocation locationId rest }
        now partnerId c
    else
      { s0 with
        waitingByLocation := Function.update s0.waitingByLocation locationId (rest ++ [c])
        events := s0.events ++ [Event.queued c (rest ++ [c]).length] }
  | [] =>
    { s0 with
      waitingByLocation := Function.update s0.waitingByLocation locationId [c]
      events := s0.events ++ [Event.queued c 1]
      listeners := s0.listeners ++ [(c, locationId)] }

/-- `matches.get(matchId)` — match ids are unique by construction, so the
first hit is the entry. -/
def lookupMatch (s : ServerState) (matchId : MatchId) : Option MatchState :=
  s.matchesMap.find? (fun m => m.id = matchId)

/-- `match.a.choice || (now > match.deadline ? 'steal' : null)`: the
effective decision of one side at time `now`. -/
def effChoice (recorded : Option String) (now deadline : Nat) : Option String :=
  match recorded with
  | some ch => some ch
  | none => if deadline < now then some "steal" else none

/-- Record a decision on side A of the match with the given id
(`match.a.choice = choice` mutates the entry held in the map). -/
def setChoiceA (matchId : MatchId) (choice : String) (ms : List MatchState) :
    List MatchState :=
  ms.map fun x =>
    if x.id = matchId then { x with a := { x.a with choice := some choice } } else x

/-- Record a decision on side B of the match with the given id. -/
def setChoiceB (matchId : MatchId) (choice : String) (ms : List MatchState) :
    List MatchState :=
  ms.map fun x =>
    if x.id = matchId then { x with b := { x.b with choice := some choice } } else x

/-- `maybeFinish(matchId)` at time `now`: no-op if the match is gone or
finished; otherwise take each side's recorded decision, defaulting to
`steal` past the deadline; if both sides are decided, compute the outcome,
send `result` to each still-live side and delete the match. -/
def maybeFinish (s : ServerState) (now : Nat) (matchId : MatchId)
    (codeA codeB : String) : ServerState :=
  match lookupMatch s matchId with
  | none => s
  | some m =>
    if m.finished then s
    else
      match effChoice m.a.choice now m.deadline, effChoice m.b.choice now m.deadline with
      | some a, some b =>
        let r := computeOutcomeAndPrizes a b codeA codeB
        let evA := if m.a.id ∈ s.live then
            [Event.result m.a.id m.id a b r.2.1] else []
        let evB := if m.b.id ∈ s.live then
            [Event.result m.b.id m.id b a r.2.2] else []
        { s with
          matchesMap := s.matchesMap.filter (fun x => x.id ≠ matchId)
          events := s.events ++ evA ++ evB }
      | _, _ => s

/-- The `submit_choice` handler: unknown match id → `error` to sender;
non-enumerated choice → silent drop; sender matched against side A first,
then side B, else `error`; on acceptance record the choice (overwriting),
acknowledge with `choice_recorded`, and run the finalize check. -/
def submitChoice (s : ServerState) (now : Nat) (c : ConnId) (matchId : MatchId)
    (choice : String) (codeA codeB : String) : ServerState :=
  match lookupMatch s matchId with
  | none => { s with events := s.events ++ [Event.errorMsg c "Match not found"] }
  | some m =>
    if choice ≠ "share" ∧ choice ≠ "steal" then s
    else if c = m.a.id then
      maybeFinish
        { s with matchesMap := setChoiceA matchId choice s.matchesMap
                 events := s.events ++ [Event.choice_recorded c matchId] }
        now matchId codeA codeB
    else if c = m.b.id then
      maybeFinish
        { s with matchesMap := setChoiceB matchId choice s.matchesMap
                 events := s.events ++ [Event.choice_recorded c matchId] }
        now matchId codeA codeB
    else { s with events := s.events ++ [Event.errorMsg c "Not part of this match"] }

/-- A socket connects: it enters the registry. -/
def handleConnect (s : ServerState) (c : ConnId) : ServerState :=
  { s with live := s.live ++ [c] }

/-- The global disconnect listener's scan over the `matches` map: every
unfinished match containing `d` is deleted; if its survivor is still live,
the survivor gets one `requeue` event and is appended to the tail of the
match's location queue. `live` is the registry after `d`'s removal; the JS
`for ... of matches` with in-loop `delete` visits each entry once, in
insertion order. -/
def cancelMatchesOf (d : ConnId) (live : List ConnId) :
    List MatchState → (LocationId → List ConnId) → List Event →
    List MatchState × (LocationId → List ConnId) × List Event
  | [], qs, evs => ([], qs, evs)
  | m :: rest, qs, evs =>
    if m.finished then
      let r := cancelMatchesOf d live rest qs evs
      (m :: r.1, r.2)
    else if m.hasConn d then
      let survivorId := if m.a.id = d then m.b.id else m.a.id
      if survivorId ∈ live then
        cancelMatchesOf d live rest
          (Function.update qs m.locationId (qs m.locationId ++ [survivorId]))
          (evs ++ [Event.requeue survivorId "Opponent disconnected"])
      else
        cancelMatchesOf d live rest qs evs
    else
      let r := cancelMatchesOf d live rest qs evs
      (m :: r.1, r.2)

/-- The per-join disconnect-cleanup listeners: each listener registered for
`d` (in registration order) removes the first occurrence of `d` from its
captured location's queue (`indexOf` + `splice`). -/
def runDisconnectListeners (d : ConnId) :
    List (ConnId × LocationId) → (LocationId → List ConnId) →
    (LocationId → List ConnId)
  | [], qs => qs
  | (c, l) :: rest, qs =>
    if c = d then
      runDisconnectListeners d rest (Function.update qs l ((qs l).erase d))
    else
      runDisconnectListeners d rest qs

/-- A socket disconnects: it leaves the registry, then its disconnect
listeners run in registration order — first the global match-cancelling
listener (registered at connection time), then any per-join cleanup
listeners. The destroyed socket's listeners are dropped. -/
def handleDisconnect (s : ServerState) (d : ConnId) : ServerState :=
  let live := s.live.erase d
  let r := cancelMatchesOf d live s.matchesMap s.waitingByLocation s.events
  let qs := runDisconnectListeners d s.listeners r.2.1
  { s with
    live := live
    matchesMap := r.1
    waitingByLocation := qs
    events := r.2.2
    listeners := s.listeners.filter (fun p => p.1 ≠ d) }

/- ## Claim C1 -/

/-- C1: `computeOutcomeAndPrizes` is deterministic in category and token
presence, for every pair of random codes: (share, share) → category `SS`
(mutual-share) with both sides tokened; (share, steal) → `ST` (exploited)
with only the stealing side B tokened; (steal, share) → `TS` (mirrored
exploited) with only the stealing side A tokened; (steal, steal) → `TT`
(mutual-steal) with neither side tokened. -/
theorem computeOutcomeAndPrizes_cases (codeA codeB : String) :
    ((computeOutcomeAndPrizes "share" "share" codeA codeB).1 = "SS" ∧
      (computeOutcomeAndPrizes "share" "share" codeA codeB).2.1.isSome = true ∧
      (computeOutcomeAndPrizes "share" "share" codeA codeB).2.2.isSome = true) ∧
    ((computeOutcomeAndPrizes "share" "steal" codeA codeB).1 = "ST" ∧
      (computeOutcomeAndPrizes "share" "steal" codeA codeB).2.1 = none ∧
      (computeOutcomeAndPrizes "share" "steal" codeA codeB).2.2.isSome = true) ∧
    ((computeOutcomeAndPrizes "steal" "share" codeA codeB).1 = "TS" ∧
      (computeOutcomeAndPrizes "steal" "share" codeA codeB).2.1.isSome = true ∧
      (computeOutcomeAndPrizes "steal" "share" codeA codeB).2.2 = none) ∧
    ((computeOutcomeAndPrizes "steal" "steal" codeA codeB).1 = "TT" ∧
      (computeOutcomeAndPrizes "steal" "steal" codeA codeB).2.1 = none ∧
      (computeOutcomeAndPrizes "steal" "steal" codeA codeB).2.2 = none) := by
  simp [computeOutcomeAndPrizes]

/-- The empty server at process start. -/
def initialState : ServerState :=
  { waitingByLocation := fun _ => []
    matchesMap := []
    live := []
    sockData := fun _ => none
    listeners := []
    events := []
    nextMatchId := 0 }

/- ## Claim C4 -/

/-- C4: `join_location` at location `loc` — empty queue: requester appended,
`queued` at the new length (1), no match created; non-empty queue with a
live popped head: exactly one match is created with the head as side A and
the requester as side B, and the queue is only popped; non-empty queue with
a dead popped head: the stale head is discarded, the requester is appended
and reported queued at the new queue length, and no match is created. In
all cases other locations' queues are untouched. -/
theorem joinLocation_cases (s : ServerState) (now : Nat) (c : ConnId)
    (loc : LocationId) (name : Option String) :
    (s.waitingByLocation loc = [] →
      (joinLocation s now c loc name).waitingByLocation loc = [c] ∧
      (joinLocation s now c loc name).events = s.events ++ [Event.queued c 1] ∧
      (joinLocation s now c loc name).matchesMap = s.matchesMap) ∧
    (∀ h rest, s.waitingByLocation loc = h :: rest → h ∈ s.live →
      (∃ m : MatchState,
        (joinLocation s now c loc name).matchesMap = s.matchesMap ++ [m] ∧
        m.a.id = h ∧ m.b.id = c ∧ m.a.choice = none ∧ m.b.choice = none) ∧
      (joinLocation s now c loc name).waitingByLocation loc = rest) ∧
    (∀ h rest, s.waitingByLocation loc = h :: rest → h ∉ s.live →
      (joinLocation s now c loc name).waitingByLocation loc = rest ++ [c] ∧
      (joinLocation s now c loc name).events =
        s.events ++ [Event.queued c (rest.length + 1)] ∧
      (joinLocation s now c loc name).matchesMap = s.matchesMap) ∧
    (∀ l, l ≠ loc →
      (joinLocation s now c loc name).waitingByLocation l = s.waitingByLocation l) := by
  refine ⟨?_, ?_, ?_, ?_⟩
  · intro hq
    simp [joinLocation, hq, Function.update_same]
  · intro h rest hq hlive
    constructor
    · simp only [joinLocation, hq, hlive, if_pos, createMatch]
      exact ⟨_, rfl, rfl, rfl, rfl, rfl⟩
    · simp [joinLocation, hq, hlive, createMatch, Function.update_same]
  · intro h rest hq hdead
    simp [joinLocation, hq, hdead, Function.update_same]
  · intro l hl
    unfold joinLocation
    cases hq : s.waitingByLocation loc with
    | nil => simp [hq, Function.update_noteq hl]
    | cons h rest =>
      by_cases hlive : h ∈ s.live <;>
        simp [hq, hlive, createMatch, Function.update_noteq hl]

/-- Concrete state for the pairing case: connection 2 waits at location 5,
both 1 and 2 live. -/
def c4PairState : ServerState :=
  { initialState with
    waitingByLocation := Function.update initialState.waitingByLocation 5 [2]
    live := [2, 1] }

/-- Concrete state for the stale-head case: connection 7 (not live) waits at
location 5. -/
def c4StaleState : ServerState :=
  { initialState with
    waitingByLocation := Function.update initialState.waitingByLocation 5 [7]
    live := [1] }

/-- Witness for C4: the three cases of `joinLocation_cases` at concrete
states — empty queue, live head, stale head. -/
theorem joinLocation_cases_witness :
    ((joinLocation initialState 0 1 5 none).waitingByLocation 5 = [1] ∧
      (joinLocation initialState 0 1 5 none).events =
        initialState.events ++ [Event.queued 1 1] ∧
      (joinLocation initialState 0 1 5 none).matchesMap = initialState.matchesMap) ∧
    ((∃ m : MatchState,
        (joinLocation c4PairState 0 1 5 none).matchesMap =
          c4PairState.matchesMap ++ [m] ∧
        m.a.id = 2 ∧ m.b.id = 1 ∧ m.a.choice = none ∧ m.b.choice = none) ∧
      (joinLocation c4PairState 0 1 5 none).waitingByLocation 5 = []) ∧
    ((joinLocation c4StaleState 0 1 5 none).waitingByLocation 5 = [7].tail ++ [1] ∧
      (joinLocation c4StaleState 0 1 5 none).events =
        c4StaleState.events ++ [Event.queued 1 ([7].tail.length + 1)] ∧
      (joinLocation c4StaleState 0 1 5 none).matchesMap = c4StaleState.matchesMap) :=
  ⟨(joinLocation_cases initialState 0 1 5 none).1 rfl,
   (joinLocation_cases c4PairState 0 1 5 none).2.1 2 [] (by decide) (by decide),
   (joinLocation_cases c4StaleState 0 1 5 none).2.2.1 7 [] (by decide) (by decide)⟩

/- ## Claim C5 -/

/-- Counterexample to C5: with an unknown `matchId` and an illegal choice
value (`"banana"`), the handler emits `error "Match not found"` to the
sender — the claim's "nothing is emitted regardless of whether the supplied
matchId refers to an existing match" is false, because the unknown-match
check runs before choice validation. -/
theorem submitChoice_illegal_unknown_emits :
    (submitChoice initialState 0 1 99 "banana" "x" "y").events =
      [Event.errorMsg 1 "Match not found"] ∧
    ¬ (submitChoice initialState 0 1 99 "banana" "x" "y").events =
      initialState.events := by
  constructor
  · rfl
  · decide

/-- C5 (amended): a `submit_choice` whose choice value is not exactly
`share` or `steal` changes nothing and emits nothing, provided the supplied
`matchId` refers to an existing match; when the `matchId` is unknown, the
handler instead emits the unknown-match error to the sender (before ever
validating the choice). -/
theorem submitChoice_illegal_amended (s : ServerState) (now : Nat) (c : ConnId)
    (matchId : MatchId) (choice codeA codeB : String) :
    ((∃ m, lookupMatch s matchId = some m) → choice ≠ "share" → choice ≠ "steal" →
      submitChoice s now c matchId choice codeA codeB = s) ∧
    (lookupMatch s matchId = none →
      submitChoice s now c matchId choice codeA codeB =
        { s with events := s.events ++ [Event.errorMsg c "Match not found"] }) := by
  constructor
  · rintro ⟨m, hm⟩ h1 h2
    simp [submitChoice, hm, h1, h2]
  · intro hm
    simp [submitChoice, hm]

/-- A concrete stored match between connections 2 (side A) and 1 (side B). -/
def c5Match : MatchState :=
  { id := 0, locationId := 5
    a := { id := 2, name := "Player", choice := none }
    b := { id := 1, name := "Player", choice := none }
    deadline := 20000, finished := false, timerAt := 20250 }

/-- A concrete state holding `c5Match`. -/
def c5State : ServerState := { initialState with matchesMap := [c5Match] }

/-- Witness for C5 (amended): at the concrete state, an illegal choice on an
existing match changes nothing; on an unknown match id the error event is
emitted. -/
theorem submitChoice_illegal_amended_witness :
    submitChoice c5State 0 1 0 "banana" "x" "y" = c5State ∧
    submitChoice c5State 0 1 99 "banana" "x" "y" =
      { c5State with events := c5State.events ++ [Event.errorMsg 1 "Match not found"] } :=
  ⟨(submitChoice_illegal_amended c5State 0 1 0 "banana" "x" "y").1
      ⟨c5Match, by decide⟩ (by decide) (by decide),
   (submitChoice_illegal_amended c5State 0 1 99 "banana" "x" "y").2 (by decide)⟩

/- ## Claim C6 -/

/-- Looking a match up after recording a side-A decision yields the looked-up
match with that decision written into side A. -/
theorem find?_setChoiceA (ms : List MatchState) (mid : MatchId) (ch : String) :
    (setChoiceA mid ch ms).find? (fun m => m.id = mid) =
      (ms.find? (fun m => m.id = mid)).map
        (fun x => { x with a := { x.a with choice := some ch } }) := by
  induction ms with
  | nil => rfl
  | cons x xs ih =>
    by_cases hx : x.id = mid
    · simp [setChoiceA, List.find?_cons, hx]
    · simp only [setChoiceA, List.map_cons, if_neg hx] at *
      simp [List.find?_cons, hx, ih]

/-- Looking a match up after recording a side-B decision yields the looked-up
match with that decision written into side B. -/
theorem find?_setChoiceB (ms : List MatchState) (mid : MatchId) (ch : String) :
    (setChoiceB mid ch ms).find? (fun m => m.id = mid) =
      (ms.find? (fun m => m.id = mid)).map
        (fun x => { x with b := { x.b with choice := some ch } }) := by
  induction ms with
  | nil => rfl
  | cons x xs ih =>
    by_cases hx : x.id = mid
    · simp [setChoiceB, List.find?_cons, hx]
    · simp only [setChoiceB, List.map_cons, if_neg hx] at *
      simp [List.find?_cons, hx, ih]

/-- The finalize check is a no-op while at least one side is effectively
undecided (no recorded decision and the deadline not yet passed). -/
theorem maybeFinish_not_both (s : ServerState) (now : Nat) (mid : MatchId)
    (codeA codeB : String) (m : MatchState)
    (hm : lookupMatch s mid = some m)
    (h : effChoice m.a.choice now m.deadline = none ∨
         effChoice m.b.choice now m.deadline = none) :
    maybeFinish s now mid codeA codeB = s := by
  unfold maybeFinish
  rw [hm]
  by_cases hf : m.finished
  · simp [hf]
  · simp only [hf, ite_false, Bool.false_eq_true]
    rcases h with h | h <;> rw [h]
    cases effChoice m.a.choice now m.deadline <;> rfl

/-- C6: a legal `submit_choice` from a participant of an existing match whose
opponent side is still effectively undecided (no recorded choice and the
deadline not yet passed) is acknowledged with `choice_recorded`, records the
submitted value on the sender's side — overwriting whatever was there, so
the recorded decision always equals the most recent submission — and leaves
the match unfinalized (still in the live match set). -/
theorem submitChoice_records_and_does_not_finalize (s : ServerState) (now : Nat)
    (c : ConnId) (matchId : MatchId) (ch codeA codeB : String) (m : MatchState)
    (hm : lookupMatch s matchId = some m)
    (hch : ch = "share" ∨ ch = "steal")
    (hside : c = m.a.id ∨ (c ≠ m.a.id ∧ c = m.b.id))
    (hopen : (if c = m.a.id then effChoice m.b.choice now m.deadline
              else effChoice m.a.choice now m.deadline) = none) :
    (submitChoice s now c matchId ch codeA codeB).events =
      s.events ++ [Event.choice_recorded c matchId] ∧
    lookupMatch (submitChoice s now c matchId ch codeA codeB) matchId =
      some (if c = m.a.id then { m with a := { m.a with choice := some ch } }
            else { m with b := { m.b with choice := some ch } }) := by
  have hlegal : ¬(ch ≠ "share" ∧ ch ≠ "steal") := by
    rcases hch with h | h <;> simp [h]
  rcases hside with hA | ⟨hnA, hB⟩
  · rw [if_pos hA] at hopen
    simp only [submitChoice, hm, if_neg hlegal, if_pos hA]
    have hlook : lookupMatch
        { s with matchesMap := setChoiceA matchId ch s.matchesMap
                 events := s.events ++ [Event.choice_recorded c matchId] }
        matchId = some { m with a := { m.a with choice := some ch } } := by
      simp only [lookupMatch] at hm ⊢
      simp [find?_setChoiceA, hm]
    rw [maybeFinish_not_both _ now matchId codeA codeB _ hlook (Or.inr hopen)]
    exact ⟨rfl, hlook⟩
  · rw [if_neg hnA] at hopen
    simp only [submitChoice, hm, if_neg hlegal, if_neg hnA, if_pos hB]
    have hlook : lookupMatch
        { s with matchesMap := setChoiceB matchId ch s.matchesMap
                 events := s.events ++ [Event.choice_recorded c matchId] }
        matchId = some { m with b := { m.b with choice := some ch } } := by
      simp only [lookupMatch] at hm ⊢
      simp [find?_setChoiceB, hm]
    rw [maybeFinish_not_both _ now matchId codeA codeB _ hlook (Or.inl hopen)]
    exact ⟨rfl, hlook⟩

/-- A concrete active match for exercising C6: connection 2 as side A,
connection 1 as side B, neither decided, deadline 20000. -/
def c6Match : MatchState :=
  { id := 0, locationId := 5
    a := { id := 2, name := "Player", choice := none }
    b := { id := 1, name := "Player", choice := none }
    deadline := 20000, finished := false, timerAt := 20250 }

/-- A concrete state holding `c6Match`. -/
def c6State : ServerState := { initialState with matchesMap := [c6Match] }

/-- Witness for C6: side A of the concrete match submits `share` at time 0;
the submission is acknowledged, recorded on side A, and the match is still
live. -/
theorem submitChoice_records_witness :
    (submitChoice c6State 0 2 0 "share" "x" "y").events =
      c6State.events ++ [Event.choice_recorded 2 0] ∧
    lookupMatch (submitChoice c6State 0 2 0 "share" "x" "y") 0 =
      some (if (2 : ConnId) = c6Match.a.id then
              { c6Match with a := { c6Match.a with choice := some "share" } }
            else
              { c6Match with b := { c6Match.b with choice := some "share" } }) :=
  submitChoice_records_and_does_not_finalize c6State 0 2 0 "share" "x" "y" c6Match
    (by decide) (Or.inl rfl) (Or.inl (by decide)) (by decide)

/- ## Claim C2 -/

/-- Nothing with the fresh id is found in a map of old matches. -/
theorem find?_fresh_none (ms : List MatchState) (mid : MatchId)
    (hfresh : ∀ m ∈ ms, m.id ≠ mid) :
    ms.find? (fun m => m.id = mid) = none := by
  rw [List.find?_eq_none]
  intro x hx
  simpa using hfresh x hx

/-- After deleting a match id, looking that id up fails. -/
theorem find?_filter_ne (l : List MatchState) (mid : MatchId) :
    (l.filter (fun x => x.id ≠ mid)).find? (fun x => x.id = mid) = none := by
  rw [List.find?_eq_none]
  intro x hx
  simpa using (List.mem_filter.mp hx).2

/-- Looking up the fresh id right after `createMatch` yields the minted
match. -/
theorem lookupMatch_createMatch (s : ServerState) (now : Nat) (aId bId : ConnId)
    (hfresh : ∀ m ∈ s.matchesMap, m.id ≠ s.nextMatchId) :
    lookupMatch (createMatch s now aId bId) s.nextMatchId =
      some (mintedMatch s now aId bId) := by
  simp [createMatch, lookupMatch, List.find?_append, find?_fresh_none _ _ hfresh,
    mintedMatch]

/-- Projection facts about the minted match record. -/
theorem mintedMatch_finished (s : ServerState) (now : Nat) (aId bId : ConnId) :
    (mintedMatch s now aId bId).finished = false := rfl

/-- The minted match has no recorded decision on side A. -/
theorem mintedMatch_aChoice (s : ServerState) (now : Nat) (aId bId : ConnId) :
    (mintedMatch s now aId bId).a.choice = none := rfl

/-- The minted match has no recorded decision on side B. -/
theorem mintedMatch_bChoice (s : ServerState) (now : Nat) (aId bId : ConnId) :
    (mintedMatch s now aId bId).b.choice = none := rfl

/-- The minted match's deadline is the decision window after `now`. -/
theorem mintedMatch_deadline (s : ServerState) (now : Nat) (aId bId : ConnId) :
    (mintedMatch s now aId bId).deadline = now + DECISION_MS := rfl

/-- The minted match's side A is the first paired socket. -/
theorem mintedMatch_aId (s : ServerState) (now : Nat) (aId bId : ConnId) :
    (mintedMatch s now aId bId).a.id = aId := rfl

/-- The minted match's side B is the second paired socket. -/
theorem mintedMatch_bId (s : ServerState) (now : Nat) (aId bId : ConnId) :
    (mintedMatch s now aId bId).b.id = bId := rfl

/-- The minted match carries the fresh id from the counter. -/
theorem mintedMatch_id (s : ServerState) (now : Nat) (aId bId : ConnId) :
    (mintedMatch s now aId bId).id = s.nextMatchId := rfl

/-- `createMatch` does not touch the socket registry. -/
theorem createMatch_live (s : ServerState) (now : Nat) (aId bId : ConnId) :
    (createMatch s now aId bId).live = s.live := rfl

/-- An absent recorded decision defaults to `steal` exactly when the current
time is past the deadline. -/
theorem effChoice_none (now deadline : Nat) :
    effChoice none now deadline = if deadline < now then some "steal" else none := rfl

/-- C2: a match just created by `createMatch` has no decisions, deadline
`now + DECISION_MS` and its finalize timer armed at `deadline + 250`; if
nobody submits, running the armed finalize check at that instant defaults
both sides to `steal` (the time is past the deadline), resolves
mutual-steal (`TT`) with no tokens, emits `result` with both choices
`steal` and a null prize code to each still-connected side, and removes the
match from the live set. -/
theorem timeout_finalizes_mutual_steal (s : ServerState) (now : Nat)
    (aId bId : ConnId) (codeA codeB : String)
    (hfresh : ∀ m ∈ s.matchesMap, m.id ≠ s.nextMatchId) :
    lookupMatch (createMatch s now aId bId) s.nextMatchId =
      some (mintedMatch s now aId bId) ∧
    (mintedMatch s now aId bId).a.id = aId ∧
    (mintedMatch s now aId bId).b.id = bId ∧
    (mintedMatch s now aId bId).a.choice = none ∧
    (mintedMatch s now aId bId).b.choice = none ∧
    (mintedMatch s now aId bId).deadline = now + DECISION_MS ∧
    (mintedMatch s now aId bId).timerAt = (mintedMatch s now aId bId).deadline + 250 ∧
    computeOutcomeAndPrizes "steal" "steal" codeA codeB = ("TT", none, none) ∧
    lookupMatch (maybeFinish (createMatch s now aId bId)
      (now + DECISION_MS + 250) s.nextMatchId codeA codeB) s.nextMatchId = none ∧
    (maybeFinish (createMatch s now aId bId)
        (now + DECISION_MS + 250) s.nextMatchId codeA codeB).events =
      (createMatch s now aId bId).events ++
        (if aId ∈ s.live then
          [Event.result aId s.nextMatchId "steal" "steal" none] else []) ++
        (if bId ∈ s.live then
          [Event.result bId s.nextMatchId "steal" "steal" none] else []) := by
  have hlt : now + DECISION_MS < now + DECISION_MS + 250 := by omega
  have hL := lookupMatch_createMatch s now aId bId hfresh
  refine ⟨hL, rfl, rfl, rfl, rfl, rfl, rfl,
    by simp [computeOutcomeAndPrizes], ?_, ?_⟩
  · unfold maybeFinish
    rw [hL]
    split
    · simp_all
    · rename_i m hm
      injection hm with hm
      subst hm
      rw [mintedMatch_finished, if_neg (by simp : ¬(false = true)),
        mintedMatch_aChoice, mintedMatch_bChoice, mintedMatch_deadline,
        effChoice_none, if_pos hlt]
      exact find?_filter_ne _ _
  · unfold maybeFinish
    rw [hL]
    split
    · simp_all
    · rename_i m hm
      injection hm with hm
      subst hm
      rw [mintedMatch_finished, if_neg (by simp : ¬(false = true)),
        mintedMatch_aChoice, mintedMatch_bChoice, mintedMatch_deadline,
        effChoice_none, if_pos hlt]
      rfl

/-- A concrete state for C2's witness: connections 1 and 2 are live, no
matches, no queues. -/
def c2State : ServerState := { initialState with live := [1, 2] }

/-- Witness for C2: pairing 1 and 2 at time 0 and firing the armed timer at
`DECISION_MS + 250` finalizes mutual-steal with no tokens. -/
theorem timeout_finalizes_mutual_steal_witness :
    lookupMatch (createMatch c2State 0 1 2) c2State.nextMatchId =
      some (mintedMatch c2State 0 1 2) ∧
    (mintedMatch c2State 0 1 2).a.id = 1 ∧
    (mintedMatch c2State 0 1 2).b.id = 2 ∧
    (mintedMatch c2State 0 1 2).a.choice = none ∧
    (mintedMatch c2State 0 1 2).b.choice = none ∧
    (mintedMatch c2State 0 1 2).deadline = 0 + DECISION_MS ∧
    (mintedMatch c2State 0 1 2).timerAt = (mintedMatch c2State 0 1 2).deadline + 250 ∧
    computeOutcomeAndPrizes "steal" "steal" "x" "y" = ("TT", none, none) ∧
    lookupMatch (maybeFinish (createMatch c2State 0 1 2)
      (0 + DECISION_MS + 250) c2State.nextMatchId "x" "y") c2State.nextMatchId = none ∧
    (maybeFinish (createMatch c2State 0 1 2)
        (0 + DECISION_MS + 250) c2State.nextMatchId "x" "y").events =
      (createMatch c2State 0 1 2).events ++
        (if 1 ∈ c2State.live then
          [Event.result 1 c2State.nextMatchId "steal" "steal" none] else []) ++
        (if 2 ∈ c2State.live then
          [Event.result 2 c2State.nextMatchId "steal" "steal" none] else []) :=
  timeout_finalizes_mutual_steal c2State 0 1 2 "x" "y" (by simp [c2State, initialState])

/- ## Claim C10 -/

/-- When both effective decisions are present, the finalize check deletes the
match, and emits to each still-live side its own choice, the opponent's
choice and its own prize code. -/
theorem maybeFinish_finalizes (s : ServerState) (now : Nat) (mid : MatchId)
    (codeA codeB : String) (m : MatchState) (a b : String)
    (hm : lookupMatch s mid = some m)
    (hfin : m.finished = false)
    (ha : effChoice m.a.choice now m.deadline = some a)
    (hb : effChoice m.b.choice now m.deadline = some b) :
    maybeFinish s now mid codeA codeB =
      { s with
        matchesMap := s.matchesMap.filter (fun x => x.id ≠ mid)
        events := s.events ++
          (if m.a.id ∈ s.live then
            [Event.result m.a.id m.id a b
              (computeOutcomeAndPrizes a b codeA codeB).2.1] else []) ++
          (if m.b.id ∈ s.live then
            [Event.result m.b.id m.id b a
              (computeOutcomeAndPrizes a b codeA codeB).2.2] else []) } := by
  unfold maybeFinish
  rw [hm]
  split
  · simp_all
  · rename_i m' hm'
    injection hm' with hm'
    subst hm'
    rw [hfin, if_neg (by simp : ¬(false = true)), ha, hb]

/-- A legal submission from side A while side B is effectively undecided
records the choice, acknowledges the sender, and does not finalize. -/
theorem submitChoice_sideA_eq (s : ServerState) (now : Nat) (c : ConnId)
    (mid : MatchId) (ch codeA codeB : String) (m : MatchState)
    (hm : lookupMatch s mid = some m)
    (hch : ch = "share" ∨ ch = "steal")
    (hA : c = m.a.id)
    (hopen : effChoice m.b.choice now m.deadline = none) :
    submitChoice s now c mid ch codeA codeB =
      { s with matchesMap := setChoiceA mid ch s.matchesMap
               events := s.events ++ [Event.choice_recorded c mid] } := by
  have hlegal : ¬(ch ≠ "share" ∧ ch ≠ "steal") := by
    rcases hch with h | h <;> simp [h]
  have hlook : lookupMatch
      { s with matchesMap := setChoiceA mid ch s.matchesMap
               events := s.events ++ [Event.choice_recorded c mid] } mid =
      some { m with a := { m.a with choice := some ch } } := by
    simp only [lookupMatch] at hm ⊢
    simp [find?_setChoiceA, hm]
  simp only [submitChoice, hm, if_neg hlegal, if_pos hA]
  exact maybeFinish_not_both _ now mid codeA codeB _ hlook (Or.inr hopen)

/-- C10: if connection `c` is at the head of location `loc`'s queue and sends
`join_location` for `loc` again, the handler pops `c` itself as the
candidate, finds it live, and creates a self-match with `c` on both sides;
`c` receives `match_found` twice, each naming itself as the opponent. A
single legal submission from `c` is recorded on side A only (side B stays
undecided, so the match does not finalize before the deadline), and the
armed timer at `deadline + 250` finalizes with side B defaulted to `steal`,
delivering both `result` events to `c`. -/
theorem self_match_on_rejoin (s : ServerState) (now now2 : Nat) (c : ConnId)
    (loc : LocationId) (name : Option String) (rest : List ConnId)
    (ch codeA codeB : String)
    (hq : s.waitingByLocation loc = c :: rest)
    (hlive : c ∈ s.live)
    (hfresh : ∀ m ∈ s.matchesMap, m.id ≠ s.nextMatchId)
    (hch : ch = "share" ∨ ch = "steal")
    (hnow2 : ¬ (now + DECISION_MS < now2)) :
    (∃ m : MatchState,
      lookupMatch (joinLocation s now c loc name) s.nextMatchId = some m ∧
      m.a.id = c ∧ m.b.id = c) ∧
    (joinLocation s now c loc name).events = s.events ++
      [Event.match_found c s.nextMatchId c (orPlayer name) (now + DECISION_MS),
       Event.match_found c s.nextMatchId c (orPlayer name) (now + DECISION_MS)] ∧
    (∃ m' : MatchState,
      lookupMatch (submitChoice (joinLocation s now c loc name) now2 c
        s.nextMatchId ch codeA codeB) s.nextMatchId = some m' ∧
      m'.a.choice = some ch ∧ m'.b.choice = none) ∧
    lookupMatch (maybeFinish (submitChoice (joinLocation s now c loc name) now2 c
        s.nextMatchId ch codeA codeB) (now + DECISION_MS + 250) s.nextMatchId
        codeA codeB) s.nextMatchId = none ∧
    (maybeFinish (submitChoice (joinLocation s now c loc name) now2 c
        s.nextMatchId ch codeA codeB) (now + DECISION_MS + 250) s.nextMatchId
        codeA codeB).events =
      (submitChoice (joinLocation s now c loc name) now2 c
        s.nextMatchId ch codeA codeB).events ++
      [Event.result c s.nextMatchId ch "steal"
        (computeOutcomeAndPrizes ch "steal" codeA codeB).2.1,
       Event.result c s.nextMatchId "steal" ch
        (computeOutcomeAndPrizes ch "steal" codeA codeB).2.2] := by
  have hlt : now + DECISION_MS < now + DECISION_MS + 250 := by omega
  have hjoin : joinLocation s now c loc name =
      createMatch
        { s with
          sockData := Function.update s.sockData c (some ⟨loc, orPlayer name⟩)
          waitingByLocation := Function.update s.waitingByLocation loc rest }
        now c c := by
    simp only [joinLocation, hq, hlive, if_pos]
  rw [hjoin]
  set sx : ServerState :=
    { s with
      sockData := Function.update s.sockData c (some ⟨loc, orPlayer name⟩)
      waitingByLocation := Function.update s.waitingByLocation loc rest } with hsx
  have hL1 : lookupMatch (createMatch sx now c c) sx.nextMatchId =
      some (mintedMatch sx now c c) :=
    lookupMatch_createMatch sx now c c hfresh
  have hopen : effChoice (mintedMatch sx now c c).b.choice now2
      (mintedMatch sx now c c).deadline = none := by
    rw [mintedMatch_bChoice, mintedMatch_deadline, effChoice_none, if_neg hnow2]
  have hsub := submitChoice_sideA_eq (createMatch sx now c c) now2 c
    sx.nextMatchId ch codeA codeB (mintedMatch sx now c c) hL1 hch rfl hopen
  have hL2 : lookupMatch
      { createMatch sx now c c with
        matchesMap := setChoiceA sx.nextMatchId ch (createMatch sx now c c).matchesMap
        events := (createMatch sx now c c).events ++
          [Event.choice_recorded c sx.nextMatchId] } sx.nextMatchId =
      some { mintedMatch sx now c c with
             a := { (mintedMatch sx now c c).a with choice := some ch } } := by
    simp only [lookupMatch] at hL1 ⊢
    simp [find?_setChoiceA, hL1]
  have hb2 : effChoice none (now + DECISION_MS + 250) (now + DECISION_MS) =
      some "steal" := by
    rw [effChoice_none, if_pos hlt]
  have hfinal := maybeFinish_finalizes _ (now + DECISION_MS + 250) sx.nextMatchId
    codeA codeB _ ch "steal" hL2 rfl rfl hb2
  refine ⟨⟨_, hL1, rfl, rfl⟩, ?_, ?_, ?_, ?_⟩
  · simp [createMatch, mintedMatch, dataOf, hsx, Function.update_same]
  · rw [hsub]
    exact ⟨_, hL2, rfl, rfl⟩
  · rw [hsub, hfinal]
    exact find?_filter_ne _ _
  · rw [hsub, hfinal]
    simp [hlive, mintedMatch_aId, mintedMatch_bId, mintedMatch_id,
      createMatch_live, hsx]

/-- Concrete state for C10: connection 1 is live and already waiting at the
head of location 5's queue. -/
def c10State : ServerState :=
  { initialState with
    waitingByLocation := Function.update initialState.waitingByLocation 5 [1]
    live := [1] }

/-- Witness for C10: connection 1 re-joins location 5, is paired with
itself, records one `share` on side A, and times out to a finalized
self-match. -/
theorem self_match_on_rejoin_witness :
    (∃ m : MatchState,
      lookupMatch (joinLocation c10State 0 1 5 none) c10State.nextMatchId = some m ∧
      m.a.id = 1 ∧ m.b.id = 1) ∧
    (joinLocation c10State 0 1 5 none).events = c10State.events ++
      [Event.match_found 1 c10State.nextMatchId 1 (orPlayer none) (0 + DECISION_MS),
       Event.match_found 1 c10State.nextMatchId 1 (orPlayer none) (0 + DECISION_MS)] ∧
    (∃ m' : MatchState,
      lookupMatch (submitChoice (joinLocation c10State 0 1 5 none) 100 1
        c10State.nextMatchId "share" "x" "y") c10State.nextMatchId = some m' ∧
      m'.a.choice = some "share" ∧ m'.b.choice = none) ∧
    lookupMatch (maybeFinish (submitChoice (joinLocation c10State 0 1 5 none) 100 1
        c10State.nextMatchId "share" "x" "y") (0 + DECISION_MS + 250)
        c10State.nextMatchId "x" "y") c10State.nextMatchId = none ∧
    (maybeFinish (submitChoice (joinLocation c10State 0 1 5 none) 100 1
        c10State.nextMatchId "share" "x" "y") (0 + DECISION_MS + 250)
        c10State.nextMatchId "x" "y").events =
      (submitChoice (joinLocation c10State 0 1 5 none) 100 1
        c10State.nextMatchId "share" "x" "y").events ++
      [Event.result 1 c10State.nextMatchId "share" "steal"
        (computeOutcomeAndPrizes "share" "steal" "x" "y").2.1,
       Event.result 1 c10State.nextMatchId "steal" "share"
        (computeOutcomeAndPrizes "share" "steal" "x" "y").2.2] :=
  self_match_on_rejoin c10State 0 100 1 5 none [] "share" "x" "y"
    (by decide) (by decide) (by simp [c10State, initialState]) (Or.inl rfl)
    (by decide)

/- ## Claim C7 -/

/-- The disconnect scan leaves all matches, queues and events alone when the
disconnecting socket participates in none of them. -/
theorem cancelMatchesOf_no_match (d : ConnId) (live : List ConnId)
    (ms : List MatchState) (qs : LocationId → List ConnId) (evs : List Event)
    (h : ∀ m ∈ ms, ¬ m.hasConn d) :
    cancelMatchesOf d live ms qs evs = (ms, qs, evs) := by
  induction ms with
  | nil => rfl
  | cons x xs ih =>
    have hx : ¬ x.hasConn d := h x (by simp)
    have ihx := ih (fun m hm => h m (by simp [hm]))
    by_cases hf : x.finished <;>
      simp [cancelMatchesOf, hf, hx, ihx]

/-- The disconnect scan over a map containing exactly one unfinished match of
`d` (with a live survivor) deletes that match, appends the survivor to the
tail of the match's location queue, and emits exactly one requeue event. -/
theorem cancelMatchesOf_single (d : ConnId) (live : List ConnId)
    (pre post : List MatchState) (m : MatchState)
    (qs : LocationId → List ConnId) (evs : List Event)
    (hpre : ∀ x ∈ pre, ¬ x.hasConn d) (hpost : ∀ x ∈ post, ¬ x.hasConn d)
    (hfin : m.finished = false) (hm : m.hasConn d)
    (hsv : (if m.a.id = d then m.b.id else m.a.id) ∈ live) :
    cancelMatchesOf d live (pre ++ m :: post) qs evs =
      (pre ++ post,
       Function.update qs m.locationId
         (qs m.locationId ++ [if m.a.id = d then m.b.id else m.a.id]),
       evs ++ [Event.requeue (if m.a.id = d then m.b.id else m.a.id)
         "Opponent disconnected"]) := by
  induction pre with
  | nil =>
    simp only [List.nil_append, cancelMatchesOf, hfin, hm, hsv, if_pos, if_true,
      Bool.false_eq_true, if_false, ite_true, ite_false]
    rw [cancelMatchesOf_no_match d live post _ _ hpost]
  | cons x xs ih =>
    have hx : ¬ x.hasConn d := hpre x (by simp)
    have ihx := ih (fun y hy => hpre y (by simp [hy]))
    by_cases hf : x.finished <;>
      simp [cancelMatchesOf, hf, hx, ihx]

/-- Listener-driven queue cleanup never changes the multiplicity of any
identifier other than the disconnecting one. -/
theorem runDisconnectListeners_count_ne (d : ConnId)
    (ls : List (ConnId × LocationId)) (qs : LocationId → List ConnId)
    (c : ConnId) (hc : c ≠ d) (l : LocationId) :
    ((runDisconnectListeners d ls qs) l).count c = (qs l).count c := by
  induction ls generalizing qs with
  | nil => rfl
  | cons p rest ih =>
    obtain ⟨c', l'⟩ := p
    by_cases hd : c' = d
    · simp only [runDisconnectListeners, hd, if_pos, ite_true]
      rw [ih]
      by_cases hl : l = l'
      · subst hl
        simp [Function.update_same, List.count_erase_of_ne hc]
      · simp [Function.update_noteq hl]
    · simp only [runDisconnectListeners, hd, ite_false]
      exact ih qs

/-- C7: a disconnect of a participant of exactly one active (unfinished)
match whose opponent is still connected deletes that match (keeping all
others), emits exactly one `requeue` notification to the survivor and no
other event (in particular no `result`), and appends the survivor's
identifier exactly once to the match's location queue, leaving the
survivor's multiplicity in every other queue unchanged. -/
theorem disconnect_cancels_match (s : ServerState) (d : ConnId) (m : MatchState)
    (sv : ConnId)
    (hone : s.matchesMap.filter (fun x => decide (x.hasConn d)) = [m])
    (hsv : sv = if m.a.id = d then m.b.id else m.a.id)
    (hfin : m.finished = false)
    (hlive : sv ∈ s.live) (hne : sv ≠ d) :
    (handleDisconnect s d).matchesMap =
      s.matchesMap.filter (fun x => decide (¬ x.hasConn d)) ∧
    (handleDisconnect s d).events =
      s.events ++ [Event.requeue sv "Opponent disconnected"] ∧
    ((handleDisconnect s d).waitingByLocation m.locationId).count sv =
      (s.waitingByLocation m.locationId).count sv + 1 ∧
    (∀ l, l ≠ m.locationId →
      ((handleDisconnect s d).waitingByLocation l).count sv =
        (s.waitingByLocation l).count sv) := by
  obtain ⟨pre, post, hsplit, hpre, hpm, hpost⟩ := List.filter_eq_cons_iff.mp hone
  have hpre' : ∀ x ∈ pre, ¬ x.hasConn d := by
    intro x hx
    simpa using hpre x hx
  have hpost' : ∀ x ∈ post, ¬ x.hasConn d := by
    intro x hx
    have := List.filter_eq_nil_iff.mp hpost x hx
    simpa using this
  have hm : m.hasConn d := by simpa using hpm
  have hsv' : (if m.a.id = d then m.b.id else m.a.id) ∈ s.live.erase d := by
    rw [← hsv]
    exact (List.mem_erase_of_ne hne).mpr hlive
  have hcancel := cancelMatchesOf_single d (s.live.erase d) pre post m
    s.waitingByLocation s.events hpre' hpost' hfin hm hsv'
  have hfilter : s.matchesMap.filter (fun x => decide (¬ x.hasConn d)) =
      pre ++ post := by
    rw [hsplit]
    rw [List.filter_append, List.filter_cons]
    have h1 : pre.filter (fun x => decide (¬ x.hasConn d)) = pre :=
      List.filter_eq_self.mpr (fun x hx => by simpa using hpre' x hx)
    have h2 : post.filter (fun x => decide (¬ x.hasConn d)) = post :=
      List.filter_eq_self.mpr (fun x hx => by simpa using hpost' x hx)
    rw [h1, h2, if_neg (by simpa using hm)]
  refine ⟨?_, ?_, ?_, ?_⟩
  · show (cancelMatchesOf d (s.live.erase d) s.matchesMap
      s.waitingByLocation s.events).1 = _
    rw [hfilter, hsplit, hcancel]
  · show (cancelMatchesOf d (s.live.erase d) s.matchesMap
      s.waitingByLocation s.events).2.2 = _
    rw [hsplit, hcancel, hsv]
  · show ((runDisconnectListeners d s.listeners
      (cancelMatchesOf d (s.live.erase d) s.matchesMap
        s.waitingByLocation s.events).2.1) m.locationId).count sv = _
    rw [hsplit, hcancel]
    rw [runDisconnectListeners_count_ne d _ _ sv hne]
    simp [Function.update_same, ← hsv]
  · intro l hl
    show ((runDisconnectListeners d s.listeners
      (cancelMatchesOf d (s.live.erase d) s.matchesMap
        s.waitingByLocation s.events).2.1) l).count sv = _
    rw [hsplit, hcancel]
    rw [runDisconnectListeners_count_ne d _ _ sv hne]
    simp [Function.update_noteq hl]

/-- A concrete active match for C7: 1 vs 2 at location 5. -/
def c7Match : MatchState :=
  { id := 0, locationId := 5
    a := { id := 1, name := "Player", choice := none }
    b := { id := 2, name := "Player", choice := none }
    deadline := 20000, finished := false, timerAt := 20250 }

/-- A concrete state for C7: the match `c7Match` is live, both sockets
connected. -/
def c7State : ServerState :=
  { initialState with matchesMap := [c7Match], live := [1, 2] }

/-- Witness for C7: connection 1 disconnects mid-match; 2 gets exactly one
requeue and is appended once to location 5's queue. -/
theorem disconnect_cancels_match_witness :
    (handleDisconnect c7State 1).matchesMap =
      c7State.matchesMap.filter (fun x => decide (¬ x.hasConn 1)) ∧
    (handleDisconnect c7State 1).events =
      c7State.events ++ [Event.requeue 2 "Opponent disconnected"] ∧
    ((handleDisconnect c7State 1).waitingByLocation c7Match.locationId).count 2 =
      (c7State.waitingByLocation c7Match.locationId).count 2 + 1 ∧
    (∀ l, l ≠ c7Match.locationId →
      ((handleDisconnect c7State 1).waitingByLocation l).count 2 =
        (c7State.waitingByLocation l).count 2) :=
  disconnect_cancels_match c7State 1 c7Match 2 (by decide) (by decide) rfl
    (by decide) (by decide)

/- ## Claim C9 -/

/-- Listener-driven queue cleanup does not touch a queue the disconnecting
identifier does not occur in. -/
theorem runDisconnectListeners_not_mem (d : ConnId)
    (ls : List (ConnId × LocationId)) (qs : LocationId → List ConnId)
    (l : LocationId) (h : d ∉ qs l) :
    (runDisconnectListeners d ls qs) l = qs l := by
  induction ls generalizing qs with
  | nil => rfl
  | cons p rest ih
  =>
    obtain ⟨c', l'⟩ := p
    by_cases hd : c' = d
    · simp only [runDisconnectListeners, hd, ite_true]
      by_cases hl : l = l'
      · subst hl
        have herase : (qs l).erase d = qs l := List.erase_of_not_mem h
        rw [show Function.update qs l ((qs l).erase d) = Function.update qs l (qs l) from by
          rw [herase]]
        rw [Function.update_eq_self]
        exact ih qs h
      · have : (Function.update qs l' ((qs l').erase d)) l = qs l :=
          Function.update_noteq hl _ _
        rw [ih _ (by rw [this]; exact h), this]
    · simp only [runDisconnectListeners, hd, ite_false]
      exact ih qs h

/-- C9: processing a mid-match disconnect only appends the survivor to the
tail of the match's location queue — the waiting head stays where it is, no
pairing is attempted (no `match_found` is emitted, no match is created),
even though another connection is already waiting in that queue. -/
theorem requeue_only_appends (s : ServerState) (d : ConnId) (m : MatchState)
    (sv w : ConnId) (ws : List ConnId)
    (hone : s.matchesMap.filter (fun x => decide (x.hasConn d)) = [m])
    (hsv : sv = if m.a.id = d then m.b.id else m.a.id)
    (hfin : m.finished = false)
    (hlive : sv ∈ s.live) (hne : sv ≠ d)
    (hw : s.waitingByLocation m.locationId = w :: ws)
    (hdq : d ∉ s.waitingByLocation m.locationId) :
    (handleDisconnect s d).matchesMap =
      s.matchesMap.filter (fun x => decide (¬ x.hasConn d)) ∧
    (handleDisconnect s d).events =
      s.events ++ [Event.requeue sv "Opponent disconnected"] ∧
    (handleDisconnect s d).waitingByLocation m.locationId =
      w :: (ws ++ [sv]) := by
  obtain ⟨pre, post, hsplit, hpre, hpm, hpost⟩ := List.filter_eq_cons_iff.mp hone
  have hpre' : ∀ x ∈ pre, ¬ x.hasConn d := by
    intro x hx
    simpa using hpre x hx
  have hpost' : ∀ x ∈ post, ¬ x.hasConn d := by
    intro x hx
    have := List.filter_eq_nil_iff.mp hpost x hx
    simpa using this
  have hm : m.hasConn d := by simpa using hpm
  have hsv' : (if m.a.id = d then m.b.id else m.a.id) ∈ s.live.erase d := by
    rw [← hsv]
    exact (List.mem_erase_of_ne hne).mpr hlive
  have hcancel := cancelMatchesOf_single d (s.live.erase d) pre post m
    s.waitingByLocation s.events hpre' hpost' hfin hm hsv'
  have hfilter : s.matchesMap.filter (fun x => decide (¬ x.hasConn d)) =
      pre ++ post := by
    rw [hsplit]
    rw [List.filter_append, List.filter_cons]
    have h1 : pre.filter (fun x => decide (¬ x.hasConn d)) = pre :=
      List.filter_eq_self.mpr (fun x hx => by simpa using hpre' x hx)
    have h2 : post.filter (fun x => decide (¬ x.hasConn d)) = post :=
      List.filter_eq_self.mpr (fun x hx => by simpa using hpost' x hx)
    rw [h1, h2, if_neg (by simpa using hm)]
  refine ⟨?_, ?_, ?_⟩
  · show (cancelMatchesOf d (s.live.erase d) s.matchesMap
      s.waitingByLocation s.events).1 = _
    rw [hfilter, hsplit, hcancel]
  · show (cancelMatchesOf d (s.live.erase d) s.matchesMap
      s.waitingByLocation s.events).2.2 = _
    rw [hsplit, hcancel, hsv]
  · show (runDisconnectListeners d s.listeners
      (cancelMatchesOf d (s.live.erase d) s.matchesMap
        s.waitingByLocation s.events).2.1) m.locationId = _
    rw [hsplit, hcancel]
    have hnm : d ∉ (Function.update s.waitingByLocation m.locationId
        (s.waitingByLocation m.locationId ++
          [if m.a.id = d then m.b.id else m.a.id])) m.locationId := by
      rw [Function.update_same]
      intro hmem
      rcases List.mem_append.mp hmem with h | h
      · exact hdq h
      · rw [← hsv] at h
        simp at h
        exact hne h.symm
    rw [runDisconnectListeners_not_mem d _ _ _ hnm]
    rw [Function.update_same, hw, ← hsv]
    rfl

/-- A concrete active match for C9: 1 vs 2 at location 5. -/
def c9Match : MatchState :=
  { id := 0, locationId := 5
    a := { id := 1, name := "Player", choice := none }
    b := { id := 2, name := "Player", choice := none }
    deadline := 20000, finished := false, timerAt := 20250 }

/-- A concrete state for C9: the match `c9Match` is live, both sockets
connected, and connection 9 is already waiting at location 5. -/
def c9State : ServerState :=
  { initialState with
    matchesMap := [c9Match]
    live := [1, 2]
    waitingByLocation := Function.update initialState.waitingByLocation 5 [9] }

/-- Witness for C9: 1 disconnects; 2 is appended behind the waiting 9 and no
match is created. -/
theorem requeue_only_appends_witness :
    (handleDisconnect c9State 1).matchesMap =
      c9State.matchesMap.filter (fun x => decide (¬ x.hasConn 1)) ∧
    (handleDisconnect c9State 1).events =
      c9State.events ++ [Event.requeue 2 "Opponent disconnected"] ∧
    (handleDisconnect c9State 1).waitingByLocation c9Match.locationId =
      9 :: ([] ++ [2]) :=
  requeue_only_appends c9State 1 c9Match 2 9 [] (by decide) (by decide) rfl
    (by decide) (by decide) (by decide) (by decide)

/- ## Claim C8 -/

/-- After the disconnect scan, no unfinished match of the disconnecting
socket remains. -/
theorem cancelMatchesOf_no_active (d : ConnId) (live : List ConnId)
    (ms : List MatchState) (qs : LocationId → List ConnId) (evs : List Event) :
    ∀ m ∈ (cancelMatchesOf d live ms qs evs).1,
      m.finished = false → ¬ m.hasConn d := by
  induction ms generalizing qs evs with
  | nil => intro m hm; simp [cancelMatchesOf] at hm
  | cons x xs ih =>
    intro m hm hmfin
    by_cases hf : x.finished
    · simp only [cancelMatchesOf, hf, ite_true] at hm
      rcases List.mem_cons.mp hm with h | h
      · subst h; rw [hf] at hmfin; cases hmfin
      · exact ih qs evs m h hmfin
    · by_cases hx : x.hasConn d
      · simp only [cancelMatchesOf, hf, hx, Bool.false_eq_true, ite_false,
          if_pos, ite_true] at hm
        by_cases hsv : (if x.a.id = d then x.b.id else x.a.id) ∈ live
        · rw [if_pos hsv] at hm
          exact ih _ _ m hm hmfin
        · rw [if_neg hsv] at hm
          exact ih _ _ m hm hmfin
      · simp only [cancelMatchesOf, hf, hx, Bool.false_eq_true, ite_false,
          if_neg, if_false] at hm
        rcases List.mem_cons.mp hm with h | h
        · subst h; exact hx
        · exact ih qs evs m h hmfin

/-- When the disconnecting socket is no longer live, the disconnect scan
never adds its identifier to any queue. -/
theorem cancelMatchesOf_count_d (d : ConnId) (live : List ConnId)
    (ms : List MatchState) (qs : LocationId → List ConnId) (evs : List Event)
    (hd : d ∉ live) (l : LocationId) :
    (((cancelMatchesOf d live ms qs evs).2.1) l).count d = (qs l).count d := by
  induction ms generalizing qs evs with
  | nil => rfl
  | cons x xs ih =>
    by_cases hf : x.finished
    · simp only [cancelMatchesOf, hf, ite_true]
      exact ih qs evs
    · by_cases hx : x.hasConn d
      · simp only [cancelMatchesOf, hf, hx, Bool.false_eq_true, ite_false,
          if_pos, ite_true]
        by_cases hsv : (if x.a.id = d then x.b.id else x.a.id) ∈ live
        · rw [if_pos hsv, ih]
          have hsvd : (if x.a.id = d then x.b.id else x.a.id) ≠ d := by
            intro heq; rw [heq] at hsv; exact hd hsv
          by_cases hl : l = x.locationId
          · subst hl
            rw [Function.update_same, List.count_append]
            have hz : List.count d [if x.a.id = d then x.b.id else x.a.id] = 0 :=
              List.count_eq_zero.mpr (by simp [Ne.symm hsvd])
            omega
          · simp [Function.update_noteq hl]
        · rw [if_neg hsv, ih]
      · simp only [cancelMatchesOf, hf, hx, Bool.false_eq_true, ite_false,
          if_neg, if_false]
        exact ih qs evs

/-- A registered cleanup listener for `(d, l)` removes `d` from `l`'s queue
whenever `d` occurs there at most once. -/
theorem runDisconnectListeners_removes (d : ConnId)
    (ls : List (ConnId × LocationId)) (qs : LocationId → List ConnId)
    (l : LocationId) (hmem : (d, l) ∈ ls) (hc : (qs l).count d ≤ 1) :
    d ∉ (runDisconnectListeners d ls qs) l := by
  induction ls generalizing qs with
  | nil => simp at hmem
  | cons p rest ih =>
    obtain ⟨c', l'⟩ := p
    by_cases hd : c' = d
    · simp only [runDisconnectListeners, hd, if_pos, ite_true]
      by_cases hl : l' = l
      · subst hl
        have hnotin : d ∉ (Function.update qs l' ((qs l').erase d)) l' := by
          rw [Function.update_same]
          intro hmm
          have hpos := List.count_pos_iff.mpr hmm
          rw [List.count_erase_self] at hpos
          omega
        rw [runDisconnectListeners_not_mem d rest _ _ hnotin]
        exact hnotin
      · rcases List.mem_cons.mp hmem with h | h
        · exact absurd (congrArg Prod.snd h).symm hl
        · exact ih _ h (by
            rw [Function.update_noteq (fun heq => hl heq.symm)]
            exact hc)
    · simp only [runDisconnectListeners, hd, ite_false]
      rcases List.mem_cons.mp hmem with h | h
      · exact absurd (congrArg Prod.fst h).symm hd
      · exact ih qs h hc

/-- C8 (amended): processing a disconnect always cancels every unfinished
match the identifier participates in; it removes the identifier from a
location's queue whenever a per-join cleanup listener was registered for
that location and the identifier occurs there at most once. (An identifier
re-admitted as a survivor into a location it holds no cleanup listener for
can remain in that queue as a stale entry, to be discarded at pairing
time.) -/
theorem disconnect_cleanup_amended (s : ServerState) (d : ConnId)
    (hl : d ∉ s.live.erase d) :
    (∀ m ∈ (handleDisconnect s d).matchesMap,
      m.finished = false → ¬ m.hasConn d) ∧
    (∀ l, (d, l) ∈ s.listeners → (s.waitingByLocation l).count d ≤ 1 →
      d ∉ (handleDisconnect s d).waitingByLocation l) := by
  constructor
  · intro m hm hfin
    exact cancelMatchesOf_no_active d (s.live.erase d) s.matchesMap
      s.waitingByLocation s.events m hm hfin
  · intro l hmem hc
    apply runDisconnectListeners_removes d s.listeners _ l hmem
    rw [cancelMatchesOf_count_d d (s.live.erase d) s.matchesMap
      s.waitingByLocation s.events hl l]
    exact hc

/-- One serialized event-handling step of the server: a fresh socket
connects, a live socket sends `join_location` or `submit_choice`, a
finalize timer fires, or a live socket's transport disconnects. -/
inductive Step : ServerState → ServerState → Prop
  | connect (s : ServerState) (c : ConnId) :
      c ∉ s.live → Step s (handleConnect s c)
  | join (s : ServerState) (now : Nat) (c : ConnId) (loc : LocationId)
      (name : Option String) :
      c ∈ s.live → Step s (joinLocation s now c loc name)
  | submit (s : ServerState) (now : Nat) (c : ConnId) (mid : MatchId)
      (choice codeA codeB : String) :
      c ∈ s.live → Step s (submitChoice s now c mid choice codeA codeB)
  | timerFire (s : ServerState) (now : Nat) (mid : MatchId)
      (codeA codeB : String) :
      Step s (maybeFinish s now mid codeA codeB)
  | disconnectStep (s : ServerState) (c : ConnId) :
      c ∈ s.live → Step s (handleDisconnect s c)

/-- States reachable from the empty server by serialized handler steps. -/
def Reachable (s : ServerState) : Prop :=
  Relation.ReflTransGen Step initialState s

/-- The C8 counterexample trace: 1 and 2 connect, 1 joins location 5 and is
queued, 2 joins and is paired with 1, then 1 disconnects (2 is requeued as
survivor), then 2 disconnects. -/
def c8s1 : ServerState := handleConnect initialState 1

/-- Second step of the C8 trace. -/
def c8s2 : ServerState := handleConnect c8s1 2

/-- Third step of the C8 trace. -/
def c8s3 : ServerState := joinLocation c8s2 0 1 5 none

/-- Fourth step of the C8 trace. -/
def c8s4 : ServerState := joinLocation c8s3 0 2 5 none

/-- Fifth step of the C8 trace. -/
def c8s5 : ServerState := handleDisconnect c8s4 1

/-- Final state of the C8 trace. -/
def c8s6 : ServerState := handleDisconnect c8s5 2

/-- Counterexample to C8: in the reachable final state of the trace,
connection 2 has fully disconnected (it is not live) yet its identifier is
still in location 5's queue — the survivor re-admission path registers no
cleanup listener, so the claim's "for every way the identifier may have
entered a queue" fails. -/
theorem disconnect_leaves_survivor_queued :
    Reachable c8s6 ∧ (2 : ConnId) ∉ c8s6.live ∧
    (2 : ConnId) ∈ c8s6.waitingByLocation 5 := by
  refine ⟨?_, by decide, by decide⟩
  have t1 : Step initialState c8s1 := Step.connect _ 1 (by decide)
  have t2 : Step c8s1 c8s2 := Step.connect _ 2 (by decide)
  have t3 : Step c8s2 c8s3 := Step.join _ 0 1 5 none (by decide)
  have t4 : Step c8s3 c8s4 := Step.join _ 0 2 5 none (by decide)
  have t5 : Step c8s4 c8s5 := Step.disconnectStep _ 1 (by decide)
  have t6 : Step c8s5 c8s6 := Step.disconnectStep _ 2 (by decide)
  exact Relation.ReflTransGen.tail
    (Relation.ReflTransGen.tail
      (Relation.ReflTransGen.tail
        (Relation.ReflTransGen.tail
          (Relation.ReflTransGen.tail (Relation.ReflTransGen.single t1) t2)
          t3)
        t4)
      t5)
    t6

/-- A concrete state for the C8 amended witness: connection 1 is live,
queued at location 5 with its cleanup listener registered. -/
def c8W : ServerState :=
  { initialState with
    live := [1]
    listeners := [(1, 5)]
    waitingByLocation := Function.update initialState.waitingByLocation 5 [1] }

/-- Witness for C8 (amended): disconnecting 1 removes it from location 5's
queue (its cleanup listener was registered there) and from every unfinished
match. -/
theorem disconnect_cleanup_amended_witness :
    (1 : ConnId) ∉ (handleDisconnect c8W 1).waitingByLocation 5 ∧
    (∀ m ∈ (handleDisconnect c8W 1).matchesMap,
      m.finished = false → ¬ m.hasConn 1) :=
  ⟨(disconnect_cleanup_amended c8W 1 (by decide)).2 5 (by decide) (by decide),
   (disconnect_cleanup_amended c8W 1 (by decide)).1⟩

/- ## Claim C3 -/

/-- The queue/match disjointness invariant over the two shared tables: a
connection sits in at most one queue (and at most once in it), stored
matches are unfinished, a connection participates in at most one stored
match, and participants of stored matches are in no queue. -/
def QInv (W : LocationId → List ConnId) (ms : List MatchState) : Prop :=
  (∀ c l1 l2, c ∈ W l1 → c ∈ W l2 → l1 = l2) ∧
  (∀ c l, (W l).count c ≤ 1) ∧
  (∀ m ∈ ms, m.finished = false) ∧
  (∀ c, (ms.filter (fun x => decide (x.hasConn c))).length ≤ 1) ∧
  (∀ c l, (∃ m ∈ ms, m.hasConn c) → c ∉ W l)

/-- The invariant, read off a server state. -/
def QueueMatchInv (s : ServerState) : Prop :=
  QInv s.waitingByLocation s.matchesMap

/-- Filtering by participation commutes with a participant-preserving map
over the stored matches. -/
theorem filter_hasConn_map_comm (f : MatchState → MatchState)
    (hpres : ∀ x c, ((f x).hasConn c ↔ x.hasConn c))
    (ms : List MatchState) (c : ConnId) :
    (ms.map f).filter (fun x => decide (x.hasConn c)) =
      (ms.filter (fun x => decide (x.hasConn c))).map f := by
  induction ms with
  | nil => rfl
  | cons y ys ih =>
    simp only [List.map_cons, List.filter_cons]
    by_cases hy : y.hasConn c
    · rw [if_pos (by simp [hpres y c, hy]), if_pos (by simp [hy]),
        List.map_cons, ih]
    · rw [if_neg (by simp [hpres y c, hy]), if_neg (by simp [hy]), ih]

/-- The invariant is preserved by any participant- and flag-preserving
rewrite of the stored matches. -/
theorem QInv_map (W : LocationId → List ConnId) (ms : List MatchState)
    (f : MatchState → MatchState)
    (hf : ∀ x, (f x).a.id = x.a.id ∧ (f x).b.id = x.b.id ∧
      (f x).finished = x.finished)
    (hinv : QInv W ms) : QInv W (ms.map f) := by
  obtain ⟨hq1, hq2, hm0, hm1, hqm⟩ := hinv
  have hpres : ∀ x c, ((f x).hasConn c ↔ x.hasConn c) := by
    intro x c
    unfold MatchState.hasConn
    rw [(hf x).1, (hf x).2.1]
  refine ⟨hq1, hq2, ?_, ?_, ?_⟩
  · intro m hm
    obtain ⟨x, hx, rfl⟩ := List.mem_map.mp hm
    rw [(hf x).2.2]
    exact hm0 x hx
  · intro c
    rw [filter_hasConn_map_comm f hpres ms c, List.length_map]
    exact hm1 c
  · intro c l hex
    obtain ⟨m, hm, hc⟩ := hex
    obtain ⟨x, hx, rfl⟩ := List.mem_map.mp hm
    exact hqm c l ⟨x, hx, (hpres x c).mp hc⟩

/-- The invariant is preserved when stored matches are only removed. -/
theorem QInv_matches_sublist (W : LocationId → List ConnId)
    (ms ms' : List MatchState) (hsub : List.Sublist ms' ms) (hinv : QInv W ms) :
    QInv W ms' := by
  obtain ⟨hq1, hq2, hm0, hm1, hqm⟩ := hinv
  refine ⟨hq1, hq2, fun m hm => hm0 m (hsub.subset hm),
    fun c => le_trans (List.Sublist.length_le (hsub.filter _)) (hm1 c),
    fun c l hex => ?_⟩
  obtain ⟨m, hm, hc⟩ := hex
  exact hqm c l ⟨m, hsub.subset hm, hc⟩

/-- The invariant is preserved when every queue only loses entries. -/
theorem QInv_queues_shrink (W W' : LocationId → List ConnId)
    (ms : List MatchState) (hsub : ∀ l, List.Sublist (W' l) (W l)) (hinv : QInv W ms) :
    QInv W' ms := by
  obtain ⟨hq1, hq2, hm0, hm1, hqm⟩ := hinv
  refine ⟨fun c l1 l2 h1 h2 => hq1 c l1 l2 ((hsub l1).subset h1) ((hsub l2).subset h2),
    fun c l => le_trans (List.Sublist.count_le (hsub l) c) (hq2 c l),
    hm0, hm1,
    fun c l hex hc => hqm c l hex ((hsub l).subset hc)⟩

/-- The finalize check never touches the queues. -/
theorem maybeFinish_queues_eq (s : ServerState) (now : Nat) (mid : MatchId)
    (codeA codeB : String) :
    (maybeFinish s now mid codeA codeB).waitingByLocation =
      s.waitingByLocation := by
  unfold maybeFinish
  split
  · rfl
  · split
    · rfl
    · split
      · rfl
      · rfl

/-- The finalize check only ever removes matches. -/
theorem maybeFinish_matches_sub (s : ServerState) (now : Nat) (mid : MatchId)
    (codeA codeB : String) :
    List.Sublist (maybeFinish s now mid codeA codeB).matchesMap s.matchesMap := by
  unfold maybeFinish
  split
  · exact List.Sublist.refl _
  · split
    · exact List.Sublist.refl _
    · split
      · exact List.filter_sublist _
      · exact List.Sublist.refl _

/-- The invariant is preserved by the finalize check. -/
theorem inv_maybeFinish (s : ServerState) (now : Nat) (mid : MatchId)
    (codeA codeB : String) (hinv : QueueMatchInv s) :
    QueueMatchInv (maybeFinish s now mid codeA codeB) := by
  unfold QueueMatchInv
  rw [maybeFinish_queues_eq]
  exact QInv_matches_sublist _ _ _ (maybeFinish_matches_sub s now mid codeA codeB) hinv

/-- The invariant is preserved by the `submit_choice` handler. -/
theorem inv_submitChoice (s : ServerState) (now : Nat) (c : ConnId)
    (mid : MatchId) (ch codeA codeB : String) (hinv : QueueMatchInv s) :
    QueueMatchInv (submitChoice s now c mid ch codeA codeB) := by
  unfold submitChoice
  split
  · exact hinv
  · split
    · exact hinv
    · split
      · apply inv_maybeFinish
        unfold QueueMatchInv setChoiceA
        exact QInv_map _ _ _
          (fun x => by by_cases hx : x.id = mid <;> simp [hx]) hinv
      · split
        · apply inv_maybeFinish
          unfold QueueMatchInv setChoiceB
          exact QInv_map _ _ _
            (fun x => by by_cases hx : x.id = mid <;> simp [hx]) hinv
        · exact hinv

/-- The invariant is preserved by `join_location` provided the requester is
currently in no queue and no stored match (the disciplined-join side
condition). -/
theorem inv_joinLocation (s : ServerState) (now : Nat) (c : ConnId)
    (loc : LocationId) (name : Option String)
    (hfq : ∀ l, c ∉ s.waitingByLocation l)
    (hfm : ∀ m ∈ s.matchesMap, ¬ m.hasConn c)
    (hinv : QueueMatchInv s) :
    QueueMatchInv (joinLocation s now c loc name) := by
  obtain ⟨hq1, hq2, hm0, hm1, hqm⟩ := hinv
  cases hq : s.waitingByLocation loc with
  | nil =>
    have hj : joinLocation s now c loc name =
        { s with
          sockData := Function.update s.sockData c (some ⟨loc, orPlayer name⟩)
          waitingByLocation := Function.update s.waitingByLocation loc [c]
          events := s.events ++ [Event.queued c 1]
          listeners := s.listeners ++ [(c, loc)] } := by
      simp only [joinLocation, hq]
    rw [hj]
    show QInv (Function.update s.waitingByLocation loc [c]) s.matchesMap
    refine ⟨?_, ?_, hm0, hm1, ?_⟩
    · intro a l1 l2 h1 h2
      rw [Function.update_apply] at h1 h2
      by_cases e1 : l1 = loc <;> by_cases e2 : l2 = loc
      · rw [e1, e2]
      · rw [if_pos e1] at h1
        rw [if_neg e2] at h2
        exact absurd h2 ((List.mem_singleton.mp h1) ▸ hfq l2)
      · rw [if_neg e1] at h1
        rw [if_pos e2] at h2
        exact absurd h1 ((List.mem_singleton.mp h2) ▸ hfq l1)
      · rw [if_neg e1] at h1
        rw [if_neg e2] at h2
        exact hq1 a l1 l2 h1 h2
    · intro a l
      rw [Function.update_apply]
      by_cases e : l = loc
      · rw [if_pos e]
        exact le_trans (List.count_le_length a [c]) (by simp)
      · rw [if_neg e]
        exact hq2 a l
    · intro a l hex
      rw [Function.update_apply]
      by_cases e : l = loc
      · rw [if_pos e]
        intro hmem
        obtain ⟨m, hm, hcm⟩ := hex
        exact hfm m hm ((List.mem_singleton.mp hmem) ▸ hcm)
      · rw [if_neg e]
        exact hqm a l hex
  | cons hd0 rest =>
    by_cases hlive : hd0 ∈ s.live
    · set SX : ServerState :=
        { s with
          sockData := Function.update s.sockData c (some ⟨loc, orPlayer name⟩)
          waitingByLocation := Function.update s.waitingByLocation loc rest }
        with hSX
      have hj : joinLocation s now c loc name = createMatch SX now hd0 c := by
        rw [hSX]
        simp only [joinLocation, hq, hlive, if_pos]
      rw [hj]
      show QInv (Function.update s.waitingByLocation loc rest)
        (s.matchesMap ++ [mintedMatch SX now hd0 c])
      have haid : (mintedMatch SX now hd0 c).a.id = hd0 := rfl
      have hbid : (mintedMatch SX now hd0 c).b.id = c := rfl
      have hfin : (mintedMatch SX now hd0 c).finished = false := rfl
      have hhead : hd0 ∈ s.waitingByLocation loc := by
        rw [hq]
        exact List.mem_cons_self _ _
      have hnr : hd0 ∉ rest := by
        have hcnt := hq2 hd0 loc
        rw [hq, List.count_cons_self] at hcnt
        intro hmem
        have := List.count_pos_iff.mpr hmem
        omega
      have hno_h : ∀ m ∈ s.matchesMap, ¬ m.hasConn hd0 :=
        fun m hm hc => hqm hd0 loc ⟨m, hm, hc⟩ hhead
      have hsubq : ∀ a l, a ∈ Function.update s.waitingByLocation loc rest l →
          a ∈ s.waitingByLocation l := by
        intro a l hmem
        rw [Function.update_apply] at hmem
        by_cases e : l = loc
        · rw [if_pos e] at hmem
          rw [e, hq]
          exact List.mem_cons_of_mem _ hmem
        · rwa [if_neg e] at hmem
      refine ⟨?_, ?_, ?_, ?_, ?_⟩
      · intro a l1 l2 h1 h2
        exact hq1 a l1 l2 (hsubq a l1 h1) (hsubq a l2 h2)
      · intro a l
        rw [Function.update_apply]
        by_cases e : l = loc
        · rw [if_pos e]
          have hcnt := hq2 a loc
          rw [hq, List.count_cons] at hcnt
          omega
        · rw [if_neg e]
          exact hq2 a l
      · intro m hm
        rcases List.mem_append.mp hm with h | h
        · exact hm0 m h
        · rw [List.mem_singleton.mp h]
          exact hfin
      · intro a
        rw [List.filter_append, List.length_append]
        by_cases hcon : (mintedMatch SX now hd0 c).hasConn a
        · have hzero :
              (s.matchesMap.filter (fun x => decide (x.hasConn a))).length = 0 := by
            rw [List.length_eq_zero, List.filter_eq_nil_iff]
            intro x hx
            simp only [decide_eq_true_eq]
            rcases hcon with hca | hcb
            · rw [haid] at hca
              exact hca ▸ hno_h x hx
            · rw [hbid] at hcb
              exact hcb ▸ hfm x hx
          have hone :
              (List.filter (fun x => decide (x.hasConn a))
                [mintedMatch SX now hd0 c]).length ≤ 1 :=
            le_trans (List.length_filter_le _ _) (by simp)
          omega
        · have hnil : List.filter (fun x => decide (x.hasConn a))
              [mintedMatch SX now hd0 c] = [] := by
            simp [hcon]
          rw [hnil]
          simpa using hm1 a
      · intro a l hex hmem
        obtain ⟨m, hm, hcm⟩ := hex
        rcases List.mem_append.mp hm with hmold | hmnew
        · exact hqm a l ⟨m, hmold, hcm⟩ (hsubq a l hmem)
        · rw [List.mem_singleton.mp hmnew] at hcm
          rcases hcm with hca | hcb
          · rw [haid] at hca
            subst hca
            rw [Function.update_apply] at hmem
            by_cases e : l = loc
            · rw [if_pos e] at hmem
              exact hnr hmem
            · rw [if_neg e] at hmem
              exact e (hq1 _ l loc hmem hhead)
          · rw [hbid] at hcb
            subst hcb
            exact hfq l (hsubq _ l hmem)
    · have hj : joinLocation s now c loc name =
          { s with
            sockData := Function.update s.sockData c (some ⟨loc, orPlayer name⟩)
            waitingByLocation :=
              Function.update s.waitingByLocation loc (rest ++ [c])
            events := s.events ++ [Event.queued c (rest ++ [c]).length] } := by
        simp only [joinLocation, hq, hlive, ite_false, if_neg]
      rw [hj]
      show QInv (Function.update s.waitingByLocation loc (rest ++ [c]))
        s.matchesMap
      have hcr : c ∉ rest := by
        intro hmem
        apply hfq loc
        rw [hq]
        exact List.mem_cons_of_mem _ hmem
      refine ⟨?_, ?_, hm0, hm1, ?_⟩
      · intro a l1 l2 h1 h2
        rw [Function.update_apply] at h1 h2
        by_cases e1 : l1 = loc <;> by_cases e2 : l2 = loc
        · rw [e1, e2]
        · rw [if_pos e1] at h1
          rw [if_neg e2] at h2
          rcases List.mem_append.mp h1 with hr | hc1
          · rw [e1]
            exact hq1 a loc l2 (by rw [hq]; exact List.mem_cons_of_mem _ hr) h2
          · exact absurd h2 ((List.mem_singleton.mp hc1) ▸ hfq l2)
        · rw [if_neg e1] at h1
          rw [if_pos e2] at h2
          rcases List.mem_append.mp h2 with hr | hc2
          · rw [e2]
            exact hq1 a l1 loc h1 (by rw [hq]; exact List.mem_cons_of_mem _ hr)
          · exact absurd h1 ((List.mem_singleton.mp hc2) ▸ hfq l1)
        · rw [if_neg e1] at h1
          rw [if_neg e2] at h2
          exact hq1 a l1 l2 h1 h2
      · intro a l
        rw [Function.update_apply]
        by_cases e : l = loc
        · rw [if_pos e, List.count_append]
          by_cases hac : a = c
          · subst hac
            have h0 : List.count a rest = 0 := List.count_eq_zero.mpr hcr
            have h1 : List.count a [a] = 1 := by simp
            omega
          · have hcnt := hq2 a loc
            rw [hq, List.count_cons] at hcnt
            have h1 : List.count a [c] = 0 :=
              List.count_eq_zero.mpr (by simp [hac])
            omega
        · rw [if_neg e]
          exact hq2 a l
      · intro a l hex
        rw [Function.update_apply]
        obtain ⟨m, hm, hcm⟩ := hex
        by_cases e : l = loc
        · rw [if_pos e]
          intro hmem
          rcases List.mem_append.mp hmem with hr | hc1
          · exact hqm a loc ⟨m, hm, hcm⟩ (by rw [hq]; exact List.mem_cons_of_mem _ hr)
          · exact hfm m hm ((List.mem_singleton.mp hc1) ▸ hcm)
        · rw [if_neg e]
          exact hqm a l ⟨m, hm, hcm⟩

/-- The disconnect scan over a map containing exactly one unfinished match of
`d`, whose survivor is no longer live, deletes that match and changes
nothing else. -/
theorem cancelMatchesOf_single_dead (d : ConnId) (live : List ConnId)
    (pre post : List MatchState) (m : MatchState)
    (qs : LocationId → List ConnId) (evs : List Event)
    (hpre : ∀ x ∈ pre, ¬ x.hasConn d) (hpost : ∀ x ∈ post, ¬ x.hasConn d)
    (hfin : m.finished = false) (hm : m.hasConn d)
    (hsv : (if m.a.id = d then m.b.id else m.a.id) ∉ live) :
    cancelMatchesOf d live (pre ++ m :: post) qs evs = (pre ++ post, qs, evs) := by
  induction pre with
  | nil =>
    have hstep : cancelMatchesOf d live ([] ++ m :: post) qs evs =
        cancelMatchesOf d live post qs evs := by
      simp only [List.nil_append, cancelMatchesOf, hfin, hm, hsv, if_pos, if_neg,
        Bool.false_eq_true, ite_true, ite_false]
    rw [hstep, cancelMatchesOf_no_match d live post _ _ hpost]
    rfl
  | cons x xs ih =>
    have hx : ¬ x.hasConn d := hpre x (by simp)
    have ihx := ih (fun y hy => hpre y (by simp [hy]))
    by_cases hf : x.finished <;>
      simp [cancelMatchesOf, hf, hx, ihx]

/-- Listener-driven queue cleanup only removes entries. -/
theorem runDisconnectListeners_sublist (d : ConnId)
    (ls : List (ConnId × LocationId)) (qs : LocationId → List ConnId)
    (l : LocationId) :
    List.Sublist ((runDisconnectListeners d ls qs) l) (qs l) := by
  induction ls generalizing qs with
  | nil => exact List.Sublist.refl _
  | cons p rest ih =>
    obtain ⟨c', l'⟩ := p
    by_cases hd : c' = d
    · simp only [runDisconnectListeners, hd, if_pos, ite_true]
      refine List.Sublist.trans (ih _) ?_
      rw [Function.update_apply]
      by_cases e : l = l'
      · rw [if_pos e, e]
        exact List.erase_sublist _ _
      · rw [if_neg e]
    · simp only [runDisconnectListeners, hd, ite_false]
      exact ih qs

/-- The invariant is preserved by the disconnect handler. -/
theorem inv_handleDisconnect (s : ServerState) (d : ConnId)
    (hinv : QueueMatchInv s) : QueueMatchInv (handleDisconnect s d) := by
  obtain ⟨hq1, hq2, hm0, hm1, hqm⟩ := hinv
  have hphase1 : QInv
      (cancelMatchesOf d (s.live.erase d) s.matchesMap
        s.waitingByLocation s.events).2.1
      (cancelMatchesOf d (s.live.erase d) s.matchesMap
        s.waitingByLocation s.events).1 := by
    cases hfe : s.matchesMap.filter (fun x => decide (x.hasConn d)) with
    | nil =>
      have hnone : ∀ m ∈ s.matchesMap, ¬ m.hasConn d := by
        intro m hm
        have := List.filter_eq_nil_iff.mp hfe m hm
        simpa using this
      rw [cancelMatchesOf_no_match d _ _ _ _ hnone]
      exact ⟨hq1, hq2, hm0, hm1, hqm⟩
    | cons m tl =>
      have htl : tl = [] := by
        have hlen := hm1 d
        rw [hfe] at hlen
        simp only [List.length_cons] at hlen
        exact List.length_eq_zero.mp (by omega)
      subst htl
      obtain ⟨pre, post, hsplit, hpre, hpm, hpost⟩ :=
        List.filter_eq_cons_iff.mp hfe
      have hpre' : ∀ x ∈ pre, ¬ x.hasConn d := fun x hx => by
        simpa using hpre x hx
      have hpost' : ∀ x ∈ post, ¬ x.hasConn d := fun x hx => by
        simpa using List.filter_eq_nil_iff.mp hpost x hx
      have hmc : m.hasConn d := by simpa using hpm
      have hmm : m ∈ s.matchesMap := by
        rw [hsplit]
        exact List.mem_append_right _ (List.mem_cons_self _ _)
      have hfin : m.finished = false := hm0 m hmm
      have hsub : List.Sublist (pre ++ post) s.matchesMap := by
        rw [hsplit]
        exact List.Sublist.append_left (List.sublist_cons_self m post) pre
      have hppmem : ∀ x ∈ pre ++ post, x ∈ s.matchesMap :=
        fun x hx => hsub.subset hx
      by_cases hlv : (if m.a.id = d then m.b.id else m.a.id) ∈ s.live.erase d
      · have hsvm : m.hasConn (if m.a.id = d then m.b.id else m.a.id) := by
          by_cases e : m.a.id = d
          · rw [if_pos e]
            exact Or.inr rfl
          · rw [if_neg e]
            exact Or.inl rfl
        have hsvq : ∀ l,
            (if m.a.id = d then m.b.id else m.a.id) ∉ s.waitingByLocation l :=
          fun l => hqm _ l ⟨m, hmm, hsvm⟩
        have hsv_nomatch : ∀ x ∈ pre ++ post,
            ¬ x.hasConn (if m.a.id = d then m.b.id else m.a.id) := by
          intro x hx hxc
          have hlen := hm1 (if m.a.id = d then m.b.id else m.a.id)
          rw [hsplit, List.filter_append] at hlen
          have hcond : decide (m.hasConn
              (if m.a.id = d then m.b.id else m.a.id)) = true := by
            simpa using hsvm
          have hfc : List.filter
              (fun y => decide (y.hasConn (if m.a.id = d then m.b.id else m.a.id)))
              (m :: post) =
              m :: List.filter
                (fun y => decide (y.hasConn (if m.a.id = d then m.b.id else m.a.id)))
                post := by
            rw [List.filter_cons, if_pos hcond]
          rw [hfc, List.length_append, List.length_cons] at hlen
          rcases List.mem_append.mp hx with h | h
          · have hmemf : x ∈ pre.filter
                (fun y => decide (y.hasConn (if m.a.id = d then m.b.id else m.a.id))) :=
              List.mem_filter.mpr ⟨h, by simpa using hxc⟩
            have hpos := List.length_pos.mpr (List.ne_nil_of_mem hmemf)
            omega
          · have hmemf : x ∈ post.filter
                (fun y => decide (y.hasConn (if m.a.id = d then m.b.id else m.a.id))) :=
              List.mem_filter.mpr ⟨h, by simpa using hxc⟩
            have hpos := List.length_pos.mpr (List.ne_nil_of_mem hmemf)
            omega
        rw [hsplit, cancelMatchesOf_single d _ pre post m _ _ hpre' hpost'
          hfin hmc hlv]
        show QInv (Function.update s.waitingByLocation m.locationId
            (s.waitingByLocation m.locationId ++
              [if m.a.id = d then m.b.id else m.a.id]))
          (pre ++ post)
        revert hsvq hsv_nomatch
        generalize (if m.a.id = d then m.b.id else m.a.id) = sv
        intro hsvq hsv_nomatch
        refine ⟨?_, ?_, ?_, ?_, ?_⟩
        · intro a l1 l2 h1 h2
          rw [Function.update_apply] at h1 h2
          by_cases hasv : a = sv
          · subst hasv
            by_cases e1 : l1 = m.locationId <;> by_cases e2 : l2 = m.locationId
            · rw [e1, e2]
            · rw [if_neg e2] at h2
              exact absurd h2 (hsvq l2)
            · rw [if_neg e1] at h1
              exact absurd h1 (hsvq l1)
            · rw [if_neg e1] at h1
              exact absurd h1 (hsvq l1)
          · have h1' : a ∈ s.waitingByLocation l1 := by
              by_cases e1 : l1 = m.locationId
              · rw [if_pos e1] at h1
                rcases List.mem_append.mp h1 with h | h
                · rw [e1]
                  exact h
                · exact absurd (List.mem_singleton.mp h) hasv
              · rwa [if_neg e1] at h1
            have h2' : a ∈ s.waitingByLocation l2 := by
              by_cases e2 : l2 = m.locationId
              · rw [if_pos e2] at h2
                rcases List.mem_append.mp h2 with h | h
                · rw [e2]
                  exact h
                · exact absurd (List.mem_singleton.mp h) hasv
              · rwa [if_neg e2] at h2
            exact hq1 a l1 l2 h1' h2'
        · intro a l
          rw [Function.update_apply]
          by_cases e : l = m.locationId
          · rw [if_pos e, List.count_append]
            by_cases hasv : a = sv
            · have h0 : List.count a (s.waitingByLocation m.locationId) = 0 :=
                List.count_eq_zero.mpr (hasv ▸ hsvq m.locationId)
              have h1 : List.count a [sv] ≤ 1 :=
                le_trans (List.count_le_length _ _) (by simp)
              omega
            · have h1 : List.count a [sv] = 0 :=
                List.count_eq_zero.mpr (by simp [hasv])
              have := hq2 a m.locationId
              omega
          · rw [if_neg e]
            exact hq2 a l
        · intro x hx
          exact hm0 x (hppmem x hx)
        · intro a
          exact le_trans (List.Sublist.length_le (hsub.filter _)) (hm1 a)
        · intro a l hex
          obtain ⟨x, hx, hxc⟩ := hex
          rw [Function.update_apply]
          by_cases e : l = m.locationId
          · rw [if_pos e]
            intro hmem
            rcases List.mem_append.mp hmem with h | h
            · exact hqm a m.locationId ⟨x, hppmem x hx, hxc⟩ h
            · exact hsv_nomatch x hx ((List.mem_singleton.mp h) ▸ hxc)
          · rw [if_neg e]
            exact hqm a l ⟨x, hppmem x hx, hxc⟩
      · rw [hsplit, cancelMatchesOf_single_dead d _ pre post m _ _ hpre' hpost'
          hfin hmc hlv]
        exact QInv_matches_sublist _ _ _ hsub ⟨hq1, hq2, hm0, hm1, hqm⟩
  show QInv
    (runDisconnectListeners d s.listeners
      (cancelMatchesOf d (s.live.erase d) s.matchesMap
        s.waitingByLocation s.events).2.1)
    (cancelMatchesOf d (s.live.erase d) s.matchesMap
      s.waitingByLocation s.events).1
  exact QInv_queues_shrink _ _ _
    (fun l => runDisconnectListeners_sublist d s.listeners _ l) hphase1

/-- The invariant holds at process start. -/
theorem inv_initialState : QueueMatchInv initialState :=
  ⟨fun _ _ _ h _ => absurd h (List.not_mem_nil _),
   fun _ _ => by simp [initialState],
   fun _ hm => absurd hm (List.not_mem_nil _),
   fun _ => by simp [initialState],
   fun _ _ ⟨_, hm, _⟩ _ => absurd hm (List.not_mem_nil _)⟩

/-- The serialized steps of the server restricted by the disciplined-join
side condition: a connection only sends `join_location` while it is in no
queue and no stored match. All other steps are as in `Step`. -/
inductive DiscStep : ServerState → ServerState → Prop
  | connect (s : ServerState) (c : ConnId) :
      c ∉ s.live → DiscStep s (handleConnect s c)
  | join (s : ServerState) (now : Nat) (c : ConnId) (loc : LocationId)
      (name : Option String) :
      c ∈ s.live → (∀ l, c ∉ s.waitingByLocation l) →
      (∀ m ∈ s.matchesMap, ¬ m.hasConn c) →
      DiscStep s (joinLocation s now c loc name)
  | submit (s : ServerState) (now : Nat) (c : ConnId) (mid : MatchId)
      (choice codeA codeB : String) :
      c ∈ s.live → DiscStep s (submitChoice s now c mid choice codeA codeB)
  | timerFire (s : ServerState) (now : Nat) (mid : MatchId)
      (codeA codeB : String) :
      DiscStep s (maybeFinish s now mid codeA codeB)
  | disconnectStep (s : ServerState) (c : ConnId) :
      c ∈ s.live → DiscStep s (handleDisconnect s c)

/-- States reachable from the empty server by disciplined steps. -/
def DiscReachable (s : ServerState) : Prop :=
  Relation.ReflTransGen DiscStep initialState s

/-- One disciplined step preserves the invariant. -/
theorem inv_DiscStep (s s' : ServerState) (h : DiscStep s s')
    (hinv : QueueMatchInv s) : QueueMatchInv s' := by
  cases h with
  | connect c hc => exact hinv
  | join now c loc name hlive hfq hfm =>
    exact inv_joinLocation s now c loc name hfq hfm hinv
  | submit now c mid ch cA cB hlive =>
    exact inv_submitChoice s now c mid ch cA cB hinv
  | timerFire now mid cA cB => exact inv_maybeFinish s now mid cA cB hinv
  | disconnectStep c hc => exact inv_handleDisconnect s c hinv

/-- The first state of the C3 counterexample trace. -/
def c3s1 : ServerState := handleConnect initialState 1

/-- The second state: connection 1 queued at location 5. -/
def c3s2 : ServerState := joinLocation c3s1 0 1 5 none

/-- The third state: the same connection joins location 6 as well. -/
def c3s3 : ServerState := joinLocation c3s2 0 1 6 none

/-- Counterexample to C3: a connection that sends `join_location` twice for
two different locations ends up in both queues simultaneously — the
unrestricted event system reaches a state violating the claimed invariant.
-/
theorem double_join_two_queues :
    Reachable c3s3 ∧ (1 : ConnId) ∈ c3s3.waitingByLocation 5 ∧
    (1 : ConnId) ∈ c3s3.waitingByLocation 6 ∧ (5 : LocationId) ≠ 6 := by
  refine ⟨?_, by decide, by decide, by decide⟩
  have t1 : Step initialState c3s1 := Step.connect _ 1 (by decide)
  have t2 : Step c3s1 c3s2 := Step.join _ 0 1 5 none (by decide)
  have t3 : Step c3s2 c3s3 := Step.join _ 0 1 6 none (by decide)
  exact Relation.ReflTransGen.tail
    (Relation.ReflTransGen.tail (Relation.ReflTransGen.single t1) t2) t3

/-- C3 (amended): in every state reachable by serialized steps in which a
connection only sends `join_location` while it is in no queue and no active
match, no connection identifier appears in more than one location queue and
no connection identifier participates in more than one stored (active)
match. -/
theorem queue_match_disjoint_amended (s : ServerState) (h : DiscReachable s) :
    (∀ c l1 l2, c ∈ s.waitingByLocation l1 → c ∈ s.waitingByLocation l2 →
      l1 = l2) ∧
    (∀ c, (s.matchesMap.filter (fun x => decide (x.hasConn c))).length ≤ 1) := by
  have hinv : QueueMatchInv s := by
    induction h with
    | refl => exact inv_initialState
    | tail hsteps hstep ih => exact inv_DiscStep _ _ hstep ih
  exact ⟨hinv.1, hinv.2.2.2.1⟩

/-- First state of the C3 witness trace. -/
def c3w1 : ServerState := handleConnect initialState 1

/-- Second state of the C3 witness trace: connection 1 queued at location 5.
-/
def c3w2 : ServerState := joinLocation c3w1 0 1 5 none

/-- Witness for C3 (amended): the disjointness conclusion at the disciplined
reachable state in which connection 1 waits at location 5. -/
theorem queue_match_disjoint_amended_witness :
    (∀ c l1 l2, c ∈ c3w2.waitingByLocation l1 → c ∈ c3w2.waitingByLocation l2 →
      l1 = l2) ∧
    (∀ c, (c3w2.matchesMap.filter (fun x => decide (x.hasConn c))).length ≤ 1) :=
  queue_match_disjoint_amended c3w2
    (Relation.ReflTransGen.tail
      (Relation.ReflTransGen.tail (Relation.ReflTransGen.refl)
        (DiscStep.connect _ 1 (by decide)))
      (DiscStep.join _ 0 1 5 none (by decide)
        (fun _ => List.not_mem_nil _)
        (fun _ hm => absurd hm (List.not_mem_nil _))))
